import Mathlib

/-!
Verification development for the Qwen relay service (Go sources).

The definitions below are a shallow embedding of the three cooperating
pieces of the core:
  * the directive parser `processThinkingPrompt` of `QwenThinkingClient`,
  * the streaming stage decoder and stream driver
    (`QwenThinkingClient.ChatWithThinkingStream` and
    `Client.ChatStreamWithThinking`),
  * the WebSocket connection hub (`Hub.Run`, `Client.sendMessage`).

Go strings are modelled as Lean `String` (a list of characters); Go byte
positions only matter for ASCII suffix tokens, where the two views agree.
Machine integers that only ever hold token counts are modelled as `Int`.
Callback invocations are modelled as an ordered list of emitted events.
-/

namespace QwenSpec

/-- The Unicode white-space predicate used by Go `unicode.IsSpace`
(`strings.TrimSpace` trims exactly these characters): the Latin-1 white
space and the White_Space code points above Latin-1. -/
def goIsSpace (c : Char) : Bool :=
  c = ' ' || c = '\t' || c = '\n' || c.toNat = 0xB || c.toNat = 0xC ||
  c = '\r' || c.toNat = 0x85 || c.toNat = 0xA0 ||
  c.toNat = 0x1680 || (0x2000 ≤ c.toNat && c.toNat ≤ 0x200A) ||
  c.toNat = 0x2028 || c.toNat = 0x2029 || c.toNat = 0x202F ||
  c.toNat = 0x205F || c.toNat = 0x3000

/-- Drop white space from the front of a character list. -/
def trimLeftChars (l : List Char) : List Char := l.dropWhile goIsSpace

/-- Drop white space from the back of a character list. -/
def trimRightChars (l : List Char) : List Char :=
  (l.reverse.dropWhile goIsSpace).reverse

/-- Go `strings.TrimSpace`: remove leading and trailing white space. -/
def goTrimSpace (s : String) : String :=
  ⟨trimLeftChars (trimRightChars s.data)⟩

/-- Go `strings.HasSuffix`. -/
def goHasSuffix (s suffix : String) : Bool :=
  suffix.data.isSuffixOf s.data

/-- Go `strings.TrimSuffix`: remove one trailing copy of `suffix`
when present, otherwise return the string unchanged. -/
def goTrimSuffix (s suffix : String) : String :=
  if goHasSuffix s suffix then ⟨s.data.take (s.data.length - suffix.data.length)⟩
  else s

/-- `QwenThinkingClient.processThinkingPrompt` (qwen_thinking.go): trim the
prompt, strip a trailing `/no_think` (reasoning off) or `/think`
(reasoning on) token, otherwise keep the trimmed text and fall back to the
global default `q.params.EnableThinking`, passed here as `enableThinking`. -/
def processThinkingPrompt (enableThinking : Bool) (content : String) :
    String × Bool :=
  let c := goTrimSpace content
  if goHasSuffix c "/no_think" then
    (goTrimSpace (goTrimSuffix c "/no_think"), false)
  else if goHasSuffix c "/think" then
    (goTrimSpace (goTrimSuffix c "/think"), true)
  else
    (c, enableThinking)

/-- Strip a trailing directive token, and any white space immediately
preceding it, from an (already trimmed) text.  This is the claim-side
description of the stripping step of the directive parser, written from
the specification words, to be compared against `processThinkingPrompt`. -/
def stripDirective (t token : String) : String :=
  ⟨trimRightChars (t.data.take (t.data.length - token.data.length))⟩

/-- Claim-side directive parser, written from the specification words
(`claimParse` is compared against the source-side `processThinkingPrompt`):
if the whitespace-trimmed text ends with the disable token, return it with
the token and preceding white space stripped and `false`; else likewise
for the enable token with `true`; else return the trimmed text and the
global default. -/
def claimParse (globalDefault : Bool) (s : String) : String × Bool :=
  let t := goTrimSpace s
  if goHasSuffix t "/no_think" then (stripDirective t "/no_think", false)
  else if goHasSuffix t "/think" then (stripDirective t "/think", true)
  else (t, globalDefault)

/-- One stage callback invocation `callback(stage, content, isComplete)`.
The stage strings are those of the Go source: `thinking` (Reasoning),
`thinking_complete` (ReasoningComplete), `streaming` (Answer),
`tool_call`, `usage`, `complete`, `error`. -/
structure StageEvent where
  stage : String
  content : String
  isComplete : Bool
deriving DecidableEq

/-- `QwenFunction`: function name and arguments of a tool call. -/
structure QwenFunction where
  name : String
  arguments : String
deriving DecidableEq

/-- `QwenToolCall`: one tool invocation in a stream delta. -/
structure QwenToolCall where
  id : String
  function : QwenFunction
  index : Int
deriving DecidableEq

/-- `QwenUsage`: token usage counters. -/
structure QwenUsage where
  promptTokens : Int
  completionTokens : Int
  totalTokens : Int
deriving DecidableEq

/-- `QwenStreamDelta`: incremental content of one streaming response. -/
structure QwenStreamDelta where
  content : String
  reasoningContent : String
  toolCalls : List QwenToolCall
deriving DecidableEq

/-- `QwenStreamChoice`: one choice in a streaming response. -/
structure QwenStreamChoice where
  delta : QwenStreamDelta
deriving DecidableEq

/-- `QwenThinkingStreamResponse`: one decoded stream line. -/
structure QwenThinkingStreamResponse where
  choices : List QwenStreamChoice
  usage : Option QwenUsage
deriving DecidableEq

/-- The mutable session state of the read loop in
`ChatWithThinkingStream`: accumulated reasoning text, accumulated answer
text, and the `isAnswering` flag. -/
structure ThinkingSession where
  reasoningContent : String
  answerContent : String
  isAnswering : Bool
deriving DecidableEq

/-- The fresh session state at the top of the read loop. -/
def initSession : ThinkingSession := ⟨"", "", false⟩

/-- The `fmt.Sprintf` formatting of one tool call event text. -/
def toolCallText (tc : QwenToolCall) : String :=
  "Tool: " ++ tc.function.name ++
    (if tc.function.arguments ≠ "" then " - Args: " ++ tc.function.arguments
     else "")

/-- The `fmt.Sprintf` formatting of the usage event text. -/
def usageText (u : QwenUsage) : String :=
  "Tokens: " ++ toString u.promptTokens ++ " prompt, " ++
    toString u.completionTokens ++ " completion, " ++
    toString u.totalTokens ++ " total"

/-- The body of the read loop of `ChatWithThinkingStream` for one
successfully unmarshalled line (qwen_thinking.go lines 172-210): reasoning
text appends and emits `thinking`; answer text first emits
`thinking_complete` when the session has not yet entered answering, then
appends and emits `streaming`; tool calls and usage each emit their event.
Returns the updated session and the events emitted, in order. -/
def processChunk (st : ThinkingSession) (r : QwenThinkingStreamResponse) :
    ThinkingSession × List StageEvent :=
  let res : ThinkingSession × List StageEvent :=
    match r.choices with
    | [] => (st, [])
    | ch :: _ =>
      let d := ch.delta
      let resA : ThinkingSession × List StageEvent :=
        if d.reasoningContent ≠ "" then
          ({ st with reasoningContent := st.reasoningContent ++ d.reasoningContent },
           [⟨"thinking", d.reasoningContent, false⟩])
        else (st, [])
      let resB : ThinkingSession × List StageEvent :=
        if d.content ≠ "" then
          let pre : List StageEvent :=
            if resA.1.isAnswering then [] else [⟨"thinking_complete", "", false⟩]
          ({ resA.1 with
              answerContent := resA.1.answerContent ++ d.content,
              isAnswering := true },
           resA.2 ++ pre ++ [⟨"streaming", d.content, false⟩])
        else resA
      (resB.1,
       resB.2 ++ d.toolCalls.map (fun tc => ⟨"tool_call", toolCallText tc, false⟩))
  (res.1,
   res.2 ++ (match r.usage with
             | some u => [⟨"usage", usageText u, false⟩]
             | none => []))

/-- One line read from the upstream stream, after trimming, removal of the
`data: ` framing and `json.Unmarshal`: `parsed r` is a line that
unmarshals into `r`; `skipped` is a blank or malformed line (silently
skipped); `doneMark` is the `[DONE]` end marker (the loop breaks). -/
inductive StreamLine where
  | parsed (r : QwenThinkingStreamResponse)
  | skipped
  | doneMark
deriving DecidableEq

/-- How the upstream stream ends when no `[DONE]` marker was seen:
a clean `io.EOF`, or a transport read error with message `msg`. -/
inductive StreamEnd where
  | eof
  | readErr (msg : String)
deriving DecidableEq

/-- The read loop of `ChatWithThinkingStream` over the successfully read
lines.  Returns the final session, the events emitted, and whether the
loop broke on a `[DONE]` marker (lines after the marker are never read). -/
def runLines (st : ThinkingSession) :
    List StreamLine → ThinkingSession × List StageEvent × Bool
  | [] => (st, [], false)
  | .doneMark :: _ => (st, [], true)
  | .skipped :: rest => runLines st rest
  | .parsed r :: rest =>
    let c := processChunk st r
    let k := runLines c.1 rest
    (k.1, c.2 ++ k.2.1, k.2.2)

/-- `QwenThinkingClient.ChatWithThinkingStream`, from the point where the
upstream call is opened (qwen_thinking.go lines 110-216).  `openErr` holds
the already formatted error message when marshalling, request creation,
the HTTP round trip or the status check fails before the read loop; in
that case the function returns the error having emitted no event.
Otherwise the read loop runs over `lines`; a `[DONE]` marker or `io.EOF`
leads to the final `complete` callback (terminal), while a read error
returns `failed to read stream: ...` without any further callback.
Result: the events delivered to the sink, and the returned Go error. -/
def chatWithThinkingStream (openErr : Option String)
    (lines : List StreamLine) (ending : StreamEnd) :
    List StageEvent × Option String :=
  match openErr with
  | some e => ([], some e)
  | none =>
    let k := runLines initSession lines
    if k.2.2 then (k.2.1 ++ [⟨"complete", k.1.answerContent, true⟩], none)
    else
      match ending with
      | .eof => (k.2.1 ++ [⟨"complete", k.1.answerContent, true⟩], none)
      | .readErr m => (k.2.1, some ("failed to read stream: " ++ m))

/-- One `stream.Recv()` result in `Client.ChatStreamWithThinking`
(client.go): the delta contents of the response choices. -/
inductive RecvItem where
  | recv (choiceContents : List String)
deriving DecidableEq

/-- How the `Recv` loop of `Client.ChatStreamWithThinking` ends:
`io.EOF`, or a mid-stream receive error. -/
inductive RecvEnd where
  | eof
  | recvErr (msg : String)
deriving DecidableEq

/-- The `Recv` loop of `Client.ChatStreamWithThinking` over the
successfully received responses: a non-empty first-choice delta content is
accumulated and emitted as a `streaming` event.  Returns the accumulated
full response and the events emitted. -/
def chatStreamRecvLoop (full : String) :
    List RecvItem → String × List StageEvent
  | [] => (full, [])
  | .recv cs :: rest =>
    match cs with
    | [] => chatStreamRecvLoop full rest
    | c :: _ =>
      if c ≠ "" then
        let k := chatStreamRecvLoop (full ++ c) rest
        (k.1, ⟨"streaming", c, false⟩ :: k.2)
      else chatStreamRecvLoop full rest

/-- `Client.ChatStreamWithThinking` (client.go lines 115-196), from the
point where the streaming call is opened.  A failed open emits a single
terminal `error` event and returns.  Otherwise the receive loop streams
`streaming` events; `io.EOF` emits the terminal `complete` event with the
full accumulated response, and a receive error emits a single terminal
`error` event.  Result: the events delivered to the sink, in order. -/
def chatStreamWithThinking (openErr : Option String)
    (items : List RecvItem) (ending : RecvEnd) : List StageEvent :=
  match openErr with
  | some e => [⟨"error", "Error: " ++ e, true⟩]
  | none =>
    let k := chatStreamRecvLoop "" items
    match ending with
    | .eof => k.2 ++ [⟨"complete", k.1, true⟩]
    | .recvErr m => k.2 ++ [⟨"error", "Stream error: " ++ m, true⟩]

/-- `QwenMessage`: a role-tagged message of the Qwen API.  JSON tags:
`role`, `content`. -/
structure QwenMessage where
  role : String
  content : String
deriving DecidableEq

/-- `QwenThinkingRequest`: the upstream request struct.  JSON tags:
`model`, `messages`, `stream`; the `ExtraBody` field carries the JSON tag
`-`, so `encoding/json` never serializes it. -/
structure QwenThinkingRequest where
  model : String
  messages : List QwenMessage
  stream : Bool
  extraBody : Option (List (String × Bool))
deriving DecidableEq

/-- Request construction of `ChatWithThinkingStream` (qwen_thinking.go
lines 86-108): the effective thinking flag comes from
`processThinkingPrompt` on the last message when its role is `user` (the
cleaned text returned by the parser is discarded by the Go code); the
request carries the message history unchanged, `stream = true`, and
`ExtraBody = {enable_thinking: true}` exactly when thinking is enabled. -/
def buildThinkingRequest (enableThinkingDefault : Bool) (model : String)
    (messages : List QwenMessage) : QwenThinkingRequest :=
  let thinkingEnabled :=
    match messages.getLast? with
    | some m =>
      if m.role = "user" then (processThinkingPrompt enableThinkingDefault m.content).2
      else false
    | none => false
  { model := model
    messages := messages
    stream := true
    extraBody :=
      if thinkingEnabled then some [("enable_thinking", true)] else none }

/-- Lower-case hexadecimal digit, as used by `encoding/json`. -/
def hexDigit (n : Nat) : Char :=
  "0123456789abcdef".data.getD n '0'

/-- The escaping of one character by `encoding/json` with the default
HTML escaping: quote and backslash get a backslash escape, newline,
carriage return and tab their short forms, other control characters and
the HTML characters `<`, `>`, `&` a `\u00xx` escape, and U+2028/U+2029 a
`\u202x` escape. -/
def jsonEscapeChar (c : Char) : List Char :=
  if c = '"' then ['\\', '"']
  else if c = '\\' then ['\\', '\\']
  else if c = '\n' then ['\\', 'n']
  else if c = '\r' then ['\\', 'r']
  else if c = '\t' then ['\\', 't']
  else if c = '<' || c = '>' || c = '&' || c.toNat < 0x20 then
    ['\\', 'u', '0', '0', hexDigit (c.toNat / 16), hexDigit (c.toNat % 16)]
  else if c.toNat = 0x2028 || c.toNat = 0x2029 then
    ['\\', 'u', '2', '0', '2', hexDigit (c.toNat % 16)]
  else [c]

/-- A JSON string literal for `s`, per `encoding/json`. -/
def jsonQuote (s : String) : String :=
  ⟨'"' :: (s.data.map jsonEscapeChar).flatten ++ ['"']⟩

/-- `json.Marshal` of one `QwenMessage`. -/
def marshalQwenMessage (m : QwenMessage) : String :=
  "\x7b\"role\":" ++ jsonQuote m.role ++ ",\"content\":" ++
    jsonQuote m.content ++ "\x7d"

/-- `json.Marshal` of a `QwenThinkingRequest` (qwen_thinking.go line 111):
the struct fields in declaration order with their JSON tags.  `ExtraBody`
is tagged `json:"-"`, so it never appears in the output, whatever its
value. -/
def marshalQwenThinkingRequest (r : QwenThinkingRequest) : String :=
  "\x7b\"model\":" ++ jsonQuote r.model ++ ",\"messages\":[" ++
    String.intercalate "," (r.messages.map marshalQwenMessage) ++
    "],\"stream\":" ++ (if r.stream then "true" else "false") ++ "\x7d"

/-- The state of one WebSocket connection as seen by the hub (main.go,
`websocket` package): whether the hub still tracks it in `h.clients`,
the buffered contents of its outbound channel `c.send`, and whether that
channel has been closed.  The channel capacity (256 in `ServeWS`) is kept
as a parameter of the operations. -/
structure ConnState where
  inHub : Bool
  queue : List String
  closed : Bool
deriving DecidableEq

/-- A freshly registered connection: tracked, empty queue, open channel. -/
def newConn : ConnState := ⟨true, [], false⟩

/-- `Client.sendMessage` (main.go lines 291-304), for a connection whose
queue is never drained: the non-blocking `select` send.  A send on a
closed channel is chosen by `select` and panics (modelled as `.error`).
With buffer space left the event is enqueued.  On a full queue the
`default` branch runs: `close(c.send)` and `delete(c.hub.clients, c)`. -/
def sendMessage (cap : Nat) (st : ConnState) (data : String) :
    Except String ConnState :=
  if st.closed then .error "panic: send on closed channel"
  else if st.queue.length < cap then .ok { st with queue := st.queue ++ [data] }
  else .ok { st with closed := true, inHub := false }

/-- `n` successive `sendMessage` enqueues of the same event; stops at the
first panic. -/
def enqueueN (cap : Nat) (data : String) :
    Nat → ConnState → Except String ConnState
  | 0, st => .ok st
  | n + 1, st =>
    match sendMessage cap st data with
    | .ok st1 => enqueueN cap data n st1
    | .error e => .error e

/-- The `unregister` case of `Hub.Run` (main.go lines 188-195): when the
connection is still tracked, remove it from `h.clients` and close its
channel; otherwise do nothing (the `ok` guard makes the second unregister
a no-op and prevents a double close). -/
def unregister (st : ConnState) : ConnState :=
  if st.inHub then { st with inHub := false, closed := true } else st

/-- A stream line whose delta carries only reasoning text. -/
def reasoningChunk (s : String) : QwenThinkingStreamResponse :=
  ⟨[⟨⟨"", s, []⟩⟩], none⟩

/-- A stream line whose delta carries only answer text. -/
def answerChunk (s : String) : QwenThinkingStreamResponse :=
  ⟨[⟨⟨s, "", []⟩⟩], none⟩

/-- Number of events in `evs` carrying stage `s`. -/
def countStage (s : String) (evs : List StageEvent) : Nat :=
  (evs.filter (fun e => e.stage == s)).length

/-- Number of terminal events (`isComplete = true`) in `evs`. -/
def countTerminal (evs : List StageEvent) : Nat :=
  (evs.filter (fun e => e.isComplete)).length

/-- Indices (in emission order) of the events of stage `s`. -/
def stageIdxs (s : String) (evs : List StageEvent) : List Nat :=
  (evs.enum.filter (fun p => p.2.stage == s)).map (fun p => p.1)

/-- Claim C2 as stated, as a decidable check on one event sequence: at
most one `thinking_complete` event, and if any `thinking` event exists
then a unique `thinking_complete` exists, placed strictly after every
`thinking` event and strictly before every `streaming` event. -/
def c2OriginalHolds (evs : List StageEvent) : Bool :=
  let rc := stageIdxs "thinking_complete" evs
  let th := stageIdxs "thinking" evs
  let ans := stageIdxs "streaming" evs
  decide (rc.length ≤ 1) &&
    (th.isEmpty ||
      match rc with
      | [i] => th.all (fun j => decide (j < i)) && ans.all (fun j => decide (i < j))
      | _ => false)

/-- Claim C3 as stated, as a decidable check on one event sequence:
exactly one terminal event, and it is the last event delivered. -/
def c3OriginalHolds (evs : List StageEvent) : Bool :=
  countTerminal evs == 1 &&
    (match evs.getLast? with
     | some e => e.isComplete
     | none => false)

/-- `true` for events that are neither `thinking_complete` nor
`streaming`. -/
def notRCStream (e : StageEvent) : Bool :=
  e.stage != "thinking_complete" && e.stage != "streaming"

/-- `true` for events that are not `thinking_complete`. -/
def notRC (e : StageEvent) : Bool :=
  e.stage != "thinking_complete"

/-- `true` for events that are non-terminal and not of stage `error`. -/
def nontermNoErr (e : StageEvent) : Bool :=
  !e.isComplete && e.stage != "error"

/-- Whether a stream line is the `[DONE]` marker. -/
def lineIsDone : StreamLine → Bool
  | .doneMark => true
  | _ => false

/-- Whether a stream line is a parsed chunk whose processed (first-choice)
delta carries reasoning text. -/
def lineCarriesReasoning : StreamLine → Bool
  | .parsed r =>
    match r.choices with
    | ch :: _ => ch.delta.reasoningContent != ""
    | [] => false
  | _ => false

/-- Whether a stream line is a parsed chunk whose processed (first-choice)
delta carries answer text. -/
def lineCarriesAnswer : StreamLine → Bool
  | .parsed r =>
    match r.choices with
    | ch :: _ => ch.delta.content != ""
    | [] => false
  | _ => false

/-- A character list with no leading white space. -/
def noLeadWS (l : List Char) : Prop :=
  ∀ c, l.head? = some c → goIsSpace c = false

end QwenSpec

namespace QwenSpec

lemma noLeadWS_dropWhile (l : List Char) :
    noLeadWS (l.dropWhile goIsSpace) := by
  induction l with
  | nil => intro c hc; simp [List.dropWhile] at hc
  | cons a t ih =>
    intro c hc
    by_cases h : goIsSpace a
    · rw [List.dropWhile_cons_of_pos h] at hc
      exact ih c hc
    · rw [List.dropWhile_cons_of_neg h] at hc
      simp only [List.head?_cons, Option.some.injEq] at hc
      subst hc
      exact Bool.eq_false_iff.mpr h

lemma noLeadWS_mono {l m : List Char} (h : m <+: l)
    (hl : noLeadWS l) : noLeadWS m := by
  intro c hc
  cases m with
  | nil => simp at hc
  | cons a t =>
    simp only [List.head?_cons, Option.some.injEq] at hc
    subst hc
    obtain ⟨r, hr⟩ := h
    apply hl
    rw [← hr]
    rfl

lemma trimLeftChars_of_noLead {l : List Char} (h : noLeadWS l) :
    trimLeftChars l = l := by
  cases l with
  | nil => rfl
  | cons a t =>
    simp [trimLeftChars, List.dropWhile_cons, h a rfl]

lemma trimRightChars_front (l : List Char) : trimRightChars l <+: l := by
  have h : l.reverse.dropWhile goIsSpace <:+ l.reverse :=
    List.dropWhile_suffix _
  have h2 : (l.reverse.dropWhile goIsSpace).reverse.reverse <:+ l.reverse := by
    simpa using h
  exact (List.reverse_suffix).mp h2

lemma goTrimSpace_noLead (s : String) : noLeadWS (goTrimSpace s).data :=
  noLeadWS_dropWhile _

lemma goTrimSpace_strip_eq (t token : String) (ht : noLeadWS t.data)
    (hs : goHasSuffix t token = true) :
    goTrimSpace (goTrimSuffix t token) = stripDirective t token := by
  simp only [goTrimSuffix, hs, if_true]
  unfold goTrimSpace stripDirective
  congr 1
  apply trimLeftChars_of_noLead
  exact noLeadWS_mono
    ((trimRightChars_front _).trans (List.take_prefix _ _)) ht

/-- C8: the directive parser strips a trailing `/no_think` (reasoning
off) or `/think` (reasoning on) together with the white space preceding
it from the whitespace-trimmed text, and otherwise returns the trimmed
text with the global default; the four round-trip examples evaluate as
the claim states, and for every input `processThinkingPrompt` agrees with
the claim-side `claimParse`. -/
theorem c8_directive_parsing (d : Bool) :
    processThinkingPrompt d "Hello world/think" = ("Hello world", true) ∧
    processThinkingPrompt d "Hello world /no_think" = ("Hello world", false) ∧
    processThinkingPrompt d "Hello world" = ("Hello world", d) ∧
    processThinkingPrompt d "/think" = ("", true) ∧
    ∀ s, processThinkingPrompt d s = claimParse d s := by
  refine ⟨by cases d <;> decide, by cases d <;> decide,
          by cases d <;> decide, by cases d <;> decide, ?_⟩
  intro s
  have ht : noLeadWS (goTrimSpace s).data := goTrimSpace_noLead s
  by_cases h1 : goHasSuffix (goTrimSpace s) "/no_think"
  · simp [processThinkingPrompt, claimParse, h1,
      goTrimSpace_strip_eq _ _ ht h1]
  · by_cases h2 : goHasSuffix (goTrimSpace s) "/think"
    · simp [processThinkingPrompt, claimParse, h1, h2,
        goTrimSpace_strip_eq _ _ ht h2]
    · simp [processThinkingPrompt, claimParse, h1, h2]

/-- C9 counterexample: the input `" x"` ends with neither directive
token, yet the parser does not return it unchanged — it returns the
trimmed text `"x"`. -/
theorem c9_counterexample :
    (processThinkingPrompt true " x").1 ≠ " x" ∧
    goHasSuffix " x" "/no_think" = false ∧
    goHasSuffix " x" "/think" = false := by
  decide

/-- C9 amended: on input text that is already whitespace-trimmed and does
not end with a directive token, the parser returns the text unchanged
together with the current global default (text with surrounding white
space is additionally trimmed, so character-for-character identity only
holds for trimmed input). -/
theorem c9_amended (d : Bool) (s : String) (h : goTrimSpace s = s)
    (h1 : goHasSuffix s "/no_think" = false)
    (h2 : goHasSuffix s "/think" = false) :
    processThinkingPrompt d s = (s, d) := by
  simp [processThinkingPrompt, h, h1, h2]

theorem c9_amended_witness :
    processThinkingPrompt true "Hello there" = ("Hello there", true) :=
  c9_amended true "Hello there" (by decide) (by decide) (by decide)

/-- C10: unregistering a tracked connection removes it from the hub
membership and closes its outbound channel, and unregistering again is a
no-op: the second call changes nothing (the membership guard in `Hub.Run`
skips both the delete and the close). -/
theorem c10_unregister_idempotent (st : ConnState) :
    (st.inHub = true → unregister st = ⟨false, st.queue, true⟩) ∧
    unregister (unregister st) = unregister st := by
  constructor
  · intro h
    simp [unregister, h]
  · by_cases h : st.inHub <;> simp [unregister, h]

theorem c10_unregister_idempotent_witness :
    unregister ⟨true, [], false⟩ = ⟨false, [], true⟩ ∧
    unregister (unregister ⟨true, [], false⟩) = unregister ⟨true, [], false⟩ :=
  ⟨(c10_unregister_idempotent ⟨true, [], false⟩).1 rfl,
   (c10_unregister_idempotent ⟨true, [], false⟩).2⟩

lemma enqueueN_fill (cap : Nat) (data : String) :
    ∀ (n : Nat) (q : List String), q.length + n ≤ cap →
      enqueueN cap data n ⟨true, q, false⟩ =
        .ok ⟨true, q ++ List.replicate n data, false⟩ := by
  intro n
  induction n with
  | zero => intro q h; simp [enqueueN]
  | succ n ih =>
    intro q h
    have hlt : q.length < cap := by omega
    have hsend : sendMessage cap ⟨true, q, false⟩ data =
        .ok ⟨true, q ++ [data], false⟩ := by
      simp [sendMessage, hlt]
    have hrec := ih (q ++ [data]) (by simp; omega)
    simp only [enqueueN, hsend, hrec, List.replicate_succ]
    simp

lemma enqueueN_add (cap : Nat) (data : String) (m n : Nat) :
    ∀ st, enqueueN cap data (m + n) st =
      match enqueueN cap data m st with
      | .ok st1 => enqueueN cap data n st1
      | .error e => .error e := by
  induction m with
  | zero => intro st; simp [enqueueN]
  | succ m ih =>
    intro st
    have harith : m + 1 + n = (m + n) + 1 := by omega
    rw [harith]
    simp only [enqueueN]
    cases hsend : sendMessage cap st data with
    | ok st1 => simp [ih st1]
    | error e => simp

/-- C5: on a connection with queue capacity `cap` that is never drained,
the first `cap` enqueues fill the queue; the `(cap+1)`-th enqueue removes
the connection from the hub membership and closes its channel
(drop-and-disconnect); but the `(cap+2)`-th enqueue is not a no-op: the
`select` in `sendMessage` chooses the send case on the now-closed channel
and panics. -/
theorem c5_queue_overflow (cap : Nat) (data : String) :
    enqueueN cap data cap newConn =
      .ok ⟨true, List.replicate cap data, false⟩ ∧
    enqueueN cap data (cap + 1) newConn =
      .ok ⟨false, List.replicate cap data, true⟩ ∧
    enqueueN cap data (cap + 2) newConn =
      .error "panic: send on closed channel" := by
  have hfill : enqueueN cap data cap newConn =
      .ok ⟨true, List.replicate cap data, false⟩ := by
    have := enqueueN_fill cap data cap [] (by simp)
    simpa [newConn] using this
  have hover : enqueueN cap data (cap + 1) newConn =
      .ok ⟨false, List.replicate cap data, true⟩ := by
    rw [enqueueN_add cap data cap 1 newConn, hfill]
    simp [enqueueN, sendMessage, Nat.lt_irrefl]
  refine ⟨hfill, hover, ?_⟩
  have harith : cap + 2 = (cap + 1) + 1 := by omega
  rw [harith, enqueueN_add cap data (cap + 1) 1 newConn, hover]
  simp [enqueueN, sendMessage]

/-- C6: the session whose chunks are reasoning `step1`, reasoning
`step2`, answer `ans1`, answer `ans2`, then end-of-stream produces
exactly the stage sequence Reasoning, Reasoning, ReasoningComplete,
Answer, Answer, Complete, with the Complete event carrying the full
accumulated answer `ans1ans2` and terminal flag `true`, and no Go error
returned. -/
theorem c6_two_phase_scenario :
    chatWithThinkingStream none
      [.parsed (reasoningChunk "step1"), .parsed (reasoningChunk "step2"),
       .parsed (answerChunk "ans1"), .parsed (answerChunk "ans2")] .eof =
    ([⟨"thinking", "step1", false⟩, ⟨"thinking", "step2", false⟩,
      ⟨"thinking_complete", "", false⟩, ⟨"streaming", "ans1", false⟩,
      ⟨"streaming", "ans2", false⟩, ⟨"complete", "ans1ans2", true⟩],
     none) := by
  decide

set_option maxRecDepth 8192 in
/-- C1: the upstream request body serialized by `ChatWithThinkingStream`
for the history ending in the user message `Hi/think` (global default
off).  The directive makes the computed thinking flag true and the code
stores `enable_thinking` in `ExtraBody`, but the serialized body carries
the last user message with the directive token still present and no
`enable_thinking` field at all (`ExtraBody` is tagged `json:"-"`, so
`json.Marshal` drops it): both halves of the claim fail on the code. -/
theorem c1_serialized_request :
    marshalQwenThinkingRequest
        (buildThinkingRequest false "qwen-max" [⟨"user", "Hi/think"⟩]) =
      "\x7b\"model\":\"qwen-max\",\"messages\":[\x7b\"role\":\"user\",\"content\":\"Hi/think\"\x7d],\"stream\":true\x7d" ∧
    (processThinkingPrompt false "Hi/think").2 = true ∧
    (buildThinkingRequest false "qwen-max" [⟨"user", "Hi/think"⟩]).extraBody =
      some [("enable_thinking", true)] ∧
    ¬ ("enable_thinking".data <:+:
        (marshalQwenThinkingRequest
          (buildThinkingRequest false "qwen-max" [⟨"user", "Hi/think"⟩])).data) ∧
    ("/think".data <:+:
        (marshalQwenThinkingRequest
          (buildThinkingRequest false "qwen-max" [⟨"user", "Hi/think"⟩])).data) := by
  refine ⟨by decide, by decide, by decide, by decide, by decide⟩

lemma notRC_of_notRCStream {e : StageEvent} (h : notRCStream e = true) :
    notRC e = true := by
  simp [notRCStream] at h
  simp [notRC, h.1]

lemma all_notRC_of_all_notRCStream {evs : List StageEvent}
    (h : evs.all notRCStream = true) : evs.all notRC = true := by
  rw [List.all_eq_true] at h ⊢
  exact fun e he => notRC_of_notRCStream (h e he)

lemma toolEvents_all_notRCStream (l : List QwenToolCall) :
    (l.map (fun tc =>
      (⟨"tool_call", toolCallText tc, false⟩ : StageEvent))).all
        notRCStream = true := by
  simp [List.all_map, Function.comp, notRCStream, List.all_eq_true]

lemma processChunk_all_nonterm (st : ThinkingSession)
    (r : QwenThinkingStreamResponse) :
    (processChunk st r).2.all nontermNoErr = true := by
  rcases r with ⟨cs, u⟩
  rcases cs with _ | ⟨ch, t⟩
  · cases u <;>
      simp [processChunk, nontermNoErr, List.all_append, List.all_eq_true]
  · by_cases h1 : ch.delta.reasoningContent ≠ "" <;>
      by_cases h2 : ch.delta.content ≠ "" <;>
      by_cases h3 : st.isAnswering <;>
      cases u <;>
      simp [processChunk, h1, h2, h3, nontermNoErr, List.all_append,
        List.all_map, Function.comp, List.all_eq_true]

lemma runLines_all_nonterm (lines : List StreamLine) :
    ∀ st, (runLines st lines).2.1.all nontermNoErr = true := by
  induction lines with
  | nil => intro st; simp [runLines]
  | cons line rest ih =>
    intro st
    cases line with
    | skipped => simpa [runLines] using ih st
    | doneMark => simp [runLines]
    | parsed r =>
      simp [runLines, List.all_append, processChunk_all_nonterm st r,
        ih (processChunk st r).1]

lemma runLines_not_broke (lines : List StreamLine) :
    ∀ st, lines.all (fun li => !lineIsDone li) = true →
      (runLines st lines).2.2 = false := by
  induction lines with
  | nil => intro st _; simp [runLines]
  | cons line rest ih =>
    intro st h
    rw [List.all_cons, Bool.and_eq_true] at h
    cases line with
    | skipped => simpa [runLines] using ih st h.2
    | doneMark => simp [lineIsDone] at h
    | parsed r => simpa [runLines] using ih (processChunk st r).1 h.2

lemma countTerminal_eq_zero_of_all {evs : List StageEvent}
    (h : evs.all nontermNoErr = true) : countTerminal evs = 0 := by
  rw [List.all_eq_true] at h
  unfold countTerminal
  rw [List.length_eq_zero, List.filter_eq_nil_iff]
  intro e he
  have h2 := h e he
  simp [nontermNoErr] at h2
  simp [h2.1]

lemma countStage_append (s : String) (l1 l2 : List StageEvent) :
    countStage s (l1 ++ l2) = countStage s l1 + countStage s l2 := by
  simp [countStage, List.filter_append]

lemma countStage_eq_zero_of_all_notRC {evs : List StageEvent}
    (h : evs.all notRC = true) :
    countStage "thinking_complete" evs = 0 := by
  rw [List.all_eq_true] at h
  unfold countStage
  rw [List.length_eq_zero, List.filter_eq_nil_iff]
  intro e he
  have := h e he
  simp [notRC] at this
  simp [this]

lemma processChunk_shape (st : ThinkingSession)
    (r : QwenThinkingStreamResponse) :
    (st.isAnswering = true →
      (processChunk st r).2.all notRC = true ∧
      (processChunk st r).1.isAnswering = true) ∧
    (st.isAnswering = false →
      ((processChunk st r).2.all notRCStream = true ∧
        (processChunk st r).1.isAnswering = false) ∨
      (∃ a d b, (processChunk st r).2 =
          a ++ ⟨"thinking_complete", "", false⟩ ::
            ⟨"streaming", d, false⟩ :: b ∧
        a.all notRCStream = true ∧ b.all notRC = true ∧
        (processChunk st r).1.isAnswering = true)) := by
  rcases r with ⟨cs, u⟩
  rcases cs with _ | ⟨ch, t⟩
  · constructor <;> intro h3
    · cases u <;> simp [processChunk, notRC, h3, List.all_eq_true]
    · left
      cases u <;> simp [processChunk, notRCStream, h3, List.all_eq_true]
  · constructor <;> intro h3
    · -- the session is already answering: no thinking_complete is emitted
      by_cases h1 : ch.delta.reasoningContent ≠ "" <;>
        by_cases h2 : ch.delta.content ≠ "" <;>
        cases u <;>
        simp [processChunk, h1, h2, h3, notRC, List.all_append,
          List.all_map, Function.comp, List.all_eq_true]
    · by_cases h2 : ch.delta.content ≠ ""
      · -- answer text arrives: thinking_complete then streaming
        right
        by_cases h1 : ch.delta.reasoningContent ≠ ""
        · cases u with
          | none =>
            refine ⟨[⟨"thinking", ch.delta.reasoningContent, false⟩],
              ch.delta.content,
              ch.delta.toolCalls.map
                (fun tc => ⟨"tool_call", toolCallText tc, false⟩),
              ?_, ?_, ?_, ?_⟩ <;>
              simp [processChunk, h1, h2, h3, notRCStream,
                toolEvents_all_notRCStream, all_notRC_of_all_notRCStream]
          | some x =>
            refine ⟨[⟨"thinking", ch.delta.reasoningContent, false⟩],
              ch.delta.content,
              ch.delta.toolCalls.map
                (fun tc => ⟨"tool_call", toolCallText tc, false⟩) ++
                [⟨"usage", usageText x, false⟩],
              ?_, ?_, ?_, ?_⟩ <;>
              simp [processChunk, h1, h2, h3, notRCStream, notRC,
                List.all_append, List.all_map, Function.comp,
                List.all_eq_true]
        · cases u with
          | none =>
            refine ⟨[], ch.delta.content,
              ch.delta.toolCalls.map
                (fun tc => ⟨"tool_call", toolCallText tc, false⟩),
              ?_, ?_, ?_, ?_⟩ <;>
              simp [processChunk, h1, h2, h3, notRCStream,
                toolEvents_all_notRCStream, all_notRC_of_all_notRCStream]
          | some x =>
            refine ⟨[], ch.delta.content,
              ch.delta.toolCalls.map
                (fun tc => ⟨"tool_call", toolCallText tc, false⟩) ++
                [⟨"usage", usageText x, false⟩],
              ?_, ?_, ?_, ?_⟩ <;>
              simp [processChunk, h1, h2, h3, notRCStream, notRC,
                List.all_append, List.all_map, Function.comp,
                List.all_eq_true]
      · -- no answer text: no thinking_complete, no streaming
        left
        by_cases h1 : ch.delta.reasoningContent ≠ "" <;> cases u <;>
          simp [processChunk, h1, h2, h3, notRCStream, List.all_append,
            List.all_map, Function.comp, List.all_eq_true]

lemma runLines_shape (lines : List StreamLine) :
    ∀ st,
    (st.isAnswering = true →
      (runLines st lines).2.1.all notRC = true ∧
      (runLines st lines).1.isAnswering = true) ∧
    (st.isAnswering = false →
      ((runLines st lines).2.1.all notRCStream = true ∧
        (runLines st lines).1.isAnswering = false) ∨
      (∃ a d b, (runLines st lines).2.1 =
          a ++ ⟨"thinking_complete", "", false⟩ ::
            ⟨"streaming", d, false⟩ :: b ∧
        a.all notRCStream = true ∧ b.all notRC = true ∧
        (runLines st lines).1.isAnswering = true)) := by
  induction lines with
  | nil =>
    intro st
    constructor <;> intro h3
    · simpa [runLines] using h3
    · left; simpa [runLines] using h3
  | cons line rest ih =>
    intro st
    cases line with
    | skipped => simpa [runLines] using ih st
    | doneMark =>
      constructor <;> intro h3
      · simpa [runLines] using h3
      · left; simpa [runLines] using h3
    | parsed r =>
      have hc := processChunk_shape st r
      have hr := ih (processChunk st r).1
      constructor <;> intro h3
      · obtain ⟨hcAll, hcAns⟩ := hc.1 h3
        obtain ⟨hrAll, hrAns⟩ := hr.1 hcAns
        constructor
        · simp [runLines, List.all_append, hcAll, hrAll]
        · simpa [runLines] using hrAns
      · rcases hc.2 h3 with ⟨hcAll, hcAns⟩ | ⟨a, d, b, heq, ha, hb, hcAns⟩
        · rcases hr.2 hcAns with ⟨hrAll, hrAns⟩ |
            ⟨a, d, b, heq, ha, hb, hrAns⟩
          · left
            constructor
            · simp [runLines, List.all_append, hcAll, hrAll]
            · simpa [runLines] using hrAns
          · right
            refine ⟨(processChunk st r).2 ++ a, d, b, ?_, ?_, hb, ?_⟩
            · simp [runLines, heq, List.append_assoc]
            · simp [List.all_append, hcAll, ha]
            · simpa [runLines] using hrAns
        · obtain ⟨hrAll, hrAns⟩ := hr.1 hcAns
          right
          refine ⟨a, d,
            b ++ (runLines (processChunk st r).1 rest).2.1, ?_, ha, ?_, ?_⟩
          · simp [runLines, heq, List.append_assoc]
          · simp [List.all_append, hb, hrAll]
          · simpa [runLines] using hrAns

lemma chat_shape (oe : Option String) (lines : List StreamLine)
    (ending : StreamEnd) :
    (chatWithThinkingStream oe lines ending).1.all notRCStream = true ∨
    ∃ a d b, (chatWithThinkingStream oe lines ending).1 =
        a ++ ⟨"thinking_complete", "", false⟩ ::
          ⟨"streaming", d, false⟩ :: b ∧
      a.all notRCStream = true ∧ b.all notRC = true := by
  cases oe with
  | some e => left; simp [chatWithThinkingStream]
  | none =>
    have hs := (runLines_shape lines initSession).2 rfl
    have hcomp : notRCStream
        ⟨"complete", (runLines initSession lines).1.answerContent, true⟩
          = true := by simp [notRCStream]
    rcases hs with ⟨hAll, _⟩ | ⟨a, d, b, heq, ha, hb, _⟩
    · left
      cases hbk : (runLines initSession lines).2.2 with
      | true => simp [chatWithThinkingStream, hbk, List.all_append, hAll, hcomp]
      | false =>
        cases ending with
        | eof => simp [chatWithThinkingStream, hbk, List.all_append, hAll, hcomp]
        | readErr m => simpa [chatWithThinkingStream, hbk] using hAll
    · right
      cases hbk : (runLines initSession lines).2.2 with
      | true =>
        refine ⟨a, d, b ++
          [⟨"complete", (runLines initSession lines).1.answerContent, true⟩],
          ?_, ha, ?_⟩
        · simp [chatWithThinkingStream, hbk, heq, List.append_assoc]
        · simp [List.all_append, hb, notRC_of_notRCStream hcomp]
      | false =>
        cases ending with
        | eof =>
          refine ⟨a, d, b ++
            [⟨"complete", (runLines initSession lines).1.answerContent, true⟩],
            ?_, ha, ?_⟩
          · simp [chatWithThinkingStream, hbk, heq, List.append_assoc]
          · simp [List.all_append, hb, notRC_of_notRCStream hcomp]
        | readErr m =>
          exact ⟨a, d, b, by simpa [chatWithThinkingStream, hbk] using heq,
            ha, hb⟩

/-- C2 counterexample: a chunk carrying reasoning text after answering
has begun (the reasoning branch of the loop has no `isAnswering` guard)
makes a Reasoning event follow the ReasoningComplete event, so the
claimed `strictly after the last Reasoning event` ordering fails on this
session. -/
theorem c2_rc_counterexample :
    (chatWithThinkingStream none
      [.parsed (reasoningChunk "a"), .parsed (answerChunk "b"),
       .parsed (reasoningChunk "c")] .eof).1 =
      [⟨"thinking", "a", false⟩, ⟨"thinking_complete", "", false⟩,
       ⟨"streaming", "b", false⟩, ⟨"thinking", "c", false⟩,
       ⟨"complete", "b", true⟩] ∧
    c2OriginalHolds (chatWithThinkingStream none
      [.parsed (reasoningChunk "a"), .parsed (answerChunk "b"),
       .parsed (reasoningChunk "c")] .eof).1 = false := by
  refine ⟨by decide, by decide⟩

/-- C2 amended: for every chunk sequence, at most one ReasoningComplete
event is emitted, and either no ReasoningComplete and no Answer event
occurs at all, or the event sequence splits as
`a ++ ReasoningComplete :: Answer :: b` with no Answer or
ReasoningComplete in `a` and no ReasoningComplete in `b` — that is, the
unique ReasoningComplete sits immediately before the first Answer event.
Reasoning events, however, may occur after the ReasoningComplete (see the
counterexample), so only the `strictly before the first Answer` half of
the claimed ordering holds. -/
theorem c2_rc_amended (oe : Option String) (lines : List StreamLine)
    (ending : StreamEnd) :
    countStage "thinking_complete"
      (chatWithThinkingStream oe lines ending).1 ≤ 1 ∧
    ((chatWithThinkingStream oe lines ending).1.all notRCStream = true ∨
      ∃ a d b, (chatWithThinkingStream oe lines ending).1 =
          a ++ ⟨"thinking_complete", "", false⟩ ::
            ⟨"streaming", d, false⟩ :: b ∧
        a.all notRCStream = true ∧ b.all notRC = true) := by
  have hs := chat_shape oe lines ending
  refine ⟨?_, hs⟩
  rcases hs with hAll | ⟨a, d, b, heq, ha, hb⟩
  · simp [countStage_eq_zero_of_all_notRC (all_notRC_of_all_notRCStream hAll)]
  · rw [heq, countStage_append]
    have h0 : countStage "thinking_complete" a = 0 :=
      countStage_eq_zero_of_all_notRC (all_notRC_of_all_notRCStream ha)
    have hb0 : countStage "thinking_complete" b = 0 :=
      countStage_eq_zero_of_all_notRC hb
    have hrc : (("thinking_complete" : String) == "thinking_complete") =
        true := by decide
    have hsb : (("streaming" : String) == "thinking_complete") = false := by
      decide
    have h1 : countStage "thinking_complete"
        ((⟨"thinking_complete", "", false⟩ : StageEvent) ::
          ⟨"streaming", d, false⟩ :: b) =
        1 + countStage "thinking_complete" b := by
      simp [countStage, List.filter_cons, hrc, hsb]
      omega
    rw [h0, h1, hb0]

lemma chatStreamRecvLoop_all (items : List RecvItem) :
    ∀ full, (chatStreamRecvLoop full items).2.all
      (fun e => e.stage == "streaming" && !e.isComplete) = true := by
  induction items with
  | nil => intro full; simp [chatStreamRecvLoop]
  | cons it rest ih =>
    intro full
    rcases it with ⟨cs⟩
    rcases cs with _ | ⟨c, t⟩
    · simpa [chatStreamRecvLoop] using ih full
    · by_cases hc : c ≠ ""
      · simp [chatStreamRecvLoop, hc, ih (full ++ c)]
      · simp [chatStreamRecvLoop, hc, ih full]

lemma all_not_isComplete_of_streaming {evs : List StageEvent}
    (h : evs.all (fun e => e.stage == "streaming" && !e.isComplete) = true) :
    evs.all (fun e => !e.isComplete) = true := by
  rw [List.all_eq_true] at h ⊢
  intro e he
  have h2 := h e he
  simp at h2
  simp [h2.2]

lemma all_not_isComplete_of_nonterm {evs : List StageEvent}
    (h : evs.all nontermNoErr = true) :
    evs.all (fun e => !e.isComplete) = true := by
  rw [List.all_eq_true] at h ⊢
  intro e he
  have h2 := h e he
  simp [nontermNoErr] at h2
  simp [h2.1]

lemma countTerminal_append (l1 l2 : List StageEvent) :
    countTerminal (l1 ++ l2) = countTerminal l1 + countTerminal l2 := by
  simp [countTerminal, List.filter_append]

/-- C3 counterexample: a `ChatWithThinkingStream` session that fails with
a mid-stream read error delivers no terminal event at all to the sink
(the error is returned to the Go caller instead), so `exactly one
terminal event` fails on this session. -/
theorem c3_terminal_counterexample :
    chatWithThinkingStream none [.parsed (reasoningChunk "a")]
        (.readErr "connection reset") =
      ([⟨"thinking", "a", false⟩],
       some "failed to read stream: connection reset") ∧
    c3OriginalHolds (chatWithThinkingStream none
      [.parsed (reasoningChunk "a")] (.readErr "connection reset")).1 =
      false := by
  refine ⟨by decide, by decide⟩

/-- C3 amended: every `Client.ChatStreamWithThinking` session delivers
exactly one terminal event (`complete` or `error`), last in the sequence;
a `QwenThinkingClient.ChatWithThinkingStream` session delivers exactly
one terminal event — again last — when it ends gracefully (no Go error
returned), but delivers no terminal event at all when opening or reading
fails: that failure is returned as an error to the caller instead of
being delivered to the sink. -/
theorem c3_terminal_amended :
    (∀ oe items re, ∃ pre t,
        chatStreamWithThinking oe items re = pre ++ [t] ∧
        t.isComplete = true ∧ pre.all (fun e => !e.isComplete) = true) ∧
    (∀ q lines se,
        countTerminal (chatWithThinkingStream q lines se).1 =
          if (chatWithThinkingStream q lines se).2.isSome then 0 else 1) ∧
    (∀ q lines se, (chatWithThinkingStream q lines se).2 = none →
        ∃ pre t, (chatWithThinkingStream q lines se).1 = pre ++ [t] ∧
          t.isComplete = true ∧
          pre.all (fun e => !e.isComplete) = true) := by
  refine ⟨?_, ?_, ?_⟩
  · intro oe items re
    cases oe with
    | some e => exact ⟨[], ⟨"error", "Error: " ++ e, true⟩, rfl, rfl, rfl⟩
    | none =>
      have hall := all_not_isComplete_of_streaming
        (chatStreamRecvLoop_all items "")
      cases re with
      | eof =>
        exact ⟨(chatStreamRecvLoop "" items).2,
          ⟨"complete", (chatStreamRecvLoop "" items).1, true⟩, rfl, rfl, hall⟩
      | recvErr m =>
        exact ⟨(chatStreamRecvLoop "" items).2,
          ⟨"error", "Stream error: " ++ m, true⟩, rfl, rfl, hall⟩
  · intro q lines se
    cases q with
    | some e => simp [chatWithThinkingStream, countTerminal]
    | none =>
      have hn : countTerminal (runLines initSession lines).2.1 = 0 :=
        countTerminal_eq_zero_of_all (runLines_all_nonterm lines initSession)
      cases hbk : (runLines initSession lines).2.2 with
      | true =>
        simp only [chatWithThinkingStream, hbk, if_true]
        rw [countTerminal_append, hn]
        simp [countTerminal, List.filter]
      | false =>
        cases se with
        | eof =>
          simp only [chatWithThinkingStream, hbk, Bool.false_eq_true,
            if_false]
          rw [countTerminal_append, hn]
          simp [countTerminal, List.filter]
        | readErr m =>
          simp only [chatWithThinkingStream, hbk, Bool.false_eq_true,
            if_false]
          simpa using hn
  · intro q lines se h
    cases q with
    | some e => simp [chatWithThinkingStream] at h
    | none =>
      have hall : (runLines initSession lines).2.1.all
          (fun e => !e.isComplete) = true :=
        all_not_isComplete_of_nonterm (runLines_all_nonterm lines initSession)
      cases hbk : (runLines initSession lines).2.2 with
      | true =>
        exact ⟨(runLines initSession lines).2.1,
          ⟨"complete", (runLines initSession lines).1.answerContent, true⟩,
          by simp [chatWithThinkingStream, hbk], rfl, hall⟩
      | false =>
        cases se with
        | eof =>
          exact ⟨(runLines initSession lines).2.1,
            ⟨"complete", (runLines initSession lines).1.answerContent, true⟩,
            by simp [chatWithThinkingStream, hbk], rfl, hall⟩
        | readErr m => simp [chatWithThinkingStream, hbk] at h

theorem c3_terminal_amended_witness :
    ∃ pre t, (chatWithThinkingStream none [] StreamEnd.eof).1 =
        pre ++ [t] ∧ t.isComplete = true ∧
        pre.all (fun e => !e.isComplete) = true :=
  c3_terminal_amended.2.2 none [] StreamEnd.eof rfl

/-- C4 counterexample: a `ChatWithThinkingStream` session whose upstream
call fails to open emits no event whatsoever to the sink — in particular
no Error stage event — and returns the formatted error to the caller. -/
theorem c4_error_counterexample :
    chatWithThinkingStream (some "request failed: connection refused")
        [] StreamEnd.eof =
      ([], some "request failed: connection refused") ∧
    countStage "error" (chatWithThinkingStream
      (some "request failed: connection refused") [] StreamEnd.eof).1 = 0 := by
  refine ⟨rfl, by decide⟩

/-- C4 amended: on an open failure `Client.ChatStreamWithThinking` emits
exactly one terminal `error` event carrying the diagnostic and nothing
else, and on a mid-stream receive failure it emits the already streamed
non-terminal events followed by exactly one terminal `error` event; in
both drivers no retry happens and processing stops.
`QwenThinkingClient.ChatWithThinkingStream`, however, emits no Error
stage event at all: an open failure produces no event and returns the
error, and a read failure (on a stream without a `[DONE]` marker) leaves
only the non-terminal, non-error events already emitted and returns the
formatted read error to the caller. -/
theorem c4_error_amended :
    (∀ e items ending, chatStreamWithThinking (some e) items ending =
        [⟨"error", "Error: " ++ e, true⟩]) ∧
    (∀ items m, ∃ pre,
        chatStreamWithThinking none items (.recvErr m) =
          pre ++ [⟨"error", "Stream error: " ++ m, true⟩] ∧
        pre.all (fun e => e.stage == "streaming" && !e.isComplete) = true) ∧
    (∀ e lines ending,
        chatWithThinkingStream (some e) lines ending = ([], some e)) ∧
    (∀ lines m, lines.all (fun li => !lineIsDone li) = true →
        (chatWithThinkingStream none lines (.readErr m)).2 =
          some ("failed to read stream: " ++ m) ∧
        (chatWithThinkingStream none lines (.readErr m)).1.all
          nontermNoErr = true) := by
  refine ⟨fun e items ending => rfl, ?_, fun e lines ending => rfl, ?_⟩
  · intro items m
    exact ⟨(chatStreamRecvLoop "" items).2, rfl,
      chatStreamRecvLoop_all items ""⟩
  · intro lines m h
    have hbk := runLines_not_broke lines initSession h
    constructor
    · simp [chatWithThinkingStream, hbk]
    · simpa [chatWithThinkingStream, hbk] using
        runLines_all_nonterm lines initSession

theorem c4_error_amended_witness :
    (chatWithThinkingStream none [] (.readErr "boom")).2 =
      some "failed to read stream: boom" ∧
    (chatWithThinkingStream none [] (.readErr "boom")).1.all
      nontermNoErr = true :=
  c4_error_amended.2.2.2 [] "boom" rfl

lemma processChunk_streaming_mem (st : ThinkingSession)
    (r : QwenThinkingStreamResponse)
    (h : lineCarriesAnswer (.parsed r) = true) :
    ∃ e ∈ (processChunk st r).2, e.stage = "streaming" := by
  rcases r with ⟨cs, u⟩
  rcases cs with _ | ⟨ch, t⟩
  · simp [lineCarriesAnswer] at h
  · simp only [lineCarriesAnswer, bne_iff_ne, ne_eq] at h
    refine ⟨⟨"streaming", ch.delta.content, false⟩, ?_, rfl⟩
    by_cases h1 : ch.delta.reasoningContent ≠ "" <;>
      by_cases h3 : st.isAnswering <;> cases u <;>
      simp [processChunk, h1, h, h3]

lemma runLines_streaming_exists (lines : List StreamLine) :
    ∀ st, lines.all (fun li => !lineIsDone li) = true →
      lines.any lineCarriesAnswer = true →
      ∃ e ∈ (runLines st lines).2.1, e.stage = "streaming" := by
  induction lines with
  | nil => intro st _ ha; simp at ha
  | cons line rest ih =>
    intro st hd ha
    rw [List.all_cons, Bool.and_eq_true] at hd
    rw [List.any_cons, Bool.or_eq_true] at ha
    cases line with
    | doneMark => simp [lineIsDone] at hd
    | skipped =>
      rcases ha with hline | hrest
      · simp [lineCarriesAnswer] at hline
      · simpa [runLines] using ih st hd.2 hrest
    | parsed r =>
      rcases ha with hline | hrest
      · obtain ⟨e, he, hst⟩ := processChunk_streaming_mem st r hline
        refine ⟨e, ?_, hst⟩
        simp only [runLines]
        exact List.mem_append_left _ he
      · obtain ⟨e, he, hst⟩ := ih (processChunk st r).1 hd.2 hrest
        refine ⟨e, ?_, hst⟩
        simp only [runLines]
        exact List.mem_append_right _ he

/-- C7: a session in which no processed chunk carries reasoning text but
some chunk carries answer text still emits exactly one ReasoningComplete
event, with empty text, immediately before the first Answer event; and
the concrete session `[answer "hi", end]` yields exactly
ReasoningComplete(""), Answer("hi"), Complete("hi"). -/
theorem c7_answer_only_rc :
    (∀ (lines : List StreamLine) (ending : StreamEnd),
      lines.all (fun li => !lineIsDone li && !lineCarriesReasoning li) =
        true →
      lines.any lineCarriesAnswer = true →
      ∃ a d b, (chatWithThinkingStream none lines ending).1 =
          a ++ ⟨"thinking_complete", "", false⟩ ::
            ⟨"streaming", d, false⟩ :: b ∧
        a.all notRCStream = true ∧ b.all notRC = true) ∧
    chatWithThinkingStream none [.parsed (answerChunk "hi")] StreamEnd.eof =
      ([⟨"thinking_complete", "", false⟩, ⟨"streaming", "hi", false⟩,
        ⟨"complete", "hi", true⟩], none) := by
  constructor
  · intro lines ending hno hany
    have hd : lines.all (fun li => !lineIsDone li) = true := by
      rw [List.all_eq_true] at hno ⊢
      intro li hli
      have h2 := hno li hli
      rw [Bool.and_eq_true] at h2
      exact h2.1
    obtain ⟨e, he, hst⟩ := runLines_streaming_exists lines initSession hd hany
    rcases chat_shape none lines ending with hAll | ⟨a, d, b, heq, ha, hb⟩
    · exfalso
      have hmem : e ∈ (chatWithThinkingStream none lines ending).1 := by
        cases hbk : (runLines initSession lines).2.2 with
        | true =>
          simp only [chatWithThinkingStream, hbk, if_true]
          exact List.mem_append_left _ he
        | false =>
          cases ending with
          | eof =>
            simp only [chatWithThinkingStream, hbk, Bool.false_eq_true,
              if_false]
            exact List.mem_append_left _ he
          | readErr m =>
            simpa only [chatWithThinkingStream, hbk, Bool.false_eq_true,
              if_false] using he
      have h3 := List.all_eq_true.mp hAll e hmem
      simp [notRCStream, hst] at h3
    · exact ⟨a, d, b, heq, ha, hb⟩
  · decide

theorem c7_answer_only_rc_witness :
    ∃ a d b, (chatWithThinkingStream none [.parsed (answerChunk "hi")]
        StreamEnd.eof).1 =
      a ++ ⟨"thinking_complete", "", false⟩ ::
        ⟨"streaming", d, false⟩ :: b ∧
      a.all notRCStream = true ∧ b.all notRC = true :=
  c7_answer_only_rc.1 [.parsed (answerChunk "hi")] StreamEnd.eof
    (by decide) (by decide)

end QwenSpec
